import Mathlib

/-!
Verification of the side-stacker game core: the board/move data model and win
detector from `shared/src/codecs.ts`, and the session state machine reducer
from `server/src/state.ts`, shallowly embedded in Lean.
-/

set_option maxHeartbeats 1000000

namespace SideStacker

/-- The two players' markers, `"X"` and `"O"` in the source. -/
inductive Piece
  | X
  | O
deriving DecidableEq, Repr

/-- `nextPiece` from codecs.ts: the opposite piece. -/
def nextPiece : Piece → Piece
  | .X => .O
  | .O => .X

/-- String rendering of a piece, as interpolated into log messages. -/
def showPiece : Piece → String
  | .X => "X"
  | .O => "O"

/-- A row: `left` holds pieces inserted from the left, most recent first;
`right` holds pieces inserted from the right, oldest first. -/
structure Row where
  left : List Piece
  right : List Piece
deriving DecidableEq, Repr

/-- The side of a row a piece is inserted from. -/
inductive RowSide
  | left
  | right
deriving DecidableEq, Repr

/-- `MaxRowPieces` from codecs.ts. -/
def MaxRowPieces : Nat := 7

/-- The error produced when inserting into a full row. -/
inductive RowFullError
  | mk
deriving DecidableEq, Repr

/-- `numPieces` from codecs.ts: total pieces a row holds across both sides. -/
def numPieces (row : Row) : Nat :=
  row.left.length + row.right.length

/-- `addPiece` from codecs.ts: prepend on the left / append on the right,
failing with `RowFullError` when the row is at capacity. -/
def addPiece (piece : Piece) (side : RowSide) (row : Row) : Except RowFullError Row :=
  match side with
  | .left =>
      if numPieces row < MaxRowPieces then
        .ok { row with left := piece :: row.left }
      else
        .error .mk
  | .right =>
      if numPieces row < MaxRowPieces then
        .ok { row with right := row.right ++ [piece] }
      else
        .error .mk

/-- The board: seven named rows, as in codecs.ts. -/
structure Board where
  row1 : Row
  row2 : Row
  row3 : Row
  row4 : Row
  row5 : Row
  row6 : Row
  row7 : Row
deriving DecidableEq, Repr

/-- The seven row identifiers `row1`..`row7`. -/
inductive RowIndex
  | row1
  | row2
  | row3
  | row4
  | row5
  | row6
  | row7
deriving DecidableEq, Repr

/-- `rowIndexes()` from codecs.ts. -/
def rowIndexes : List RowIndex :=
  [.row1, .row2, .row3, .row4, .row5, .row6, .row7]

/-- Reading `board[rowIndex]`. -/
def getRow (b : Board) : RowIndex → Row
  | .row1 => b.row1
  | .row2 => b.row2
  | .row3 => b.row3
  | .row4 => b.row4
  | .row5 => b.row5
  | .row6 => b.row6
  | .row7 => b.row7

/-- The spread update `{ ...board, [row]: newRow }`. -/
def setRow (b : Board) (i : RowIndex) (r : Row) : Board :=
  match i with
  | .row1 => { b with row1 := r }
  | .row2 => { b with row2 := r }
  | .row3 => { b with row3 := r }
  | .row4 => { b with row4 := r }
  | .row5 => { b with row5 := r }
  | .row6 => { b with row6 := r }
  | .row7 => { b with row7 := r }

/-- `toGrid` from codecs.ts: each row rendered as its left pieces, then
empty cells, then its right pieces (fp-ts `replicate` yields the empty list
when the count is not positive, matching truncated `Nat` subtraction). -/
def toGrid (b : Board) : List (List (Option Piece)) :=
  rowIndexes.map fun idx =>
    ((getRow b idx).left.map some)
      ++ List.replicate (MaxRowPieces - numPieces (getRow b idx)) none
      ++ ((getRow b idx).right.map some)

/-- fp-ts `array.lookup` with a JS (possibly negative) index. -/
def lookupZ (i : Int) (l : List α) : Option α :=
  if i < 0 then none else l.get? i.toNat

/-- The cell lookup pipeline of `connectedFour`: look up the row, then the
column, then flatten the optional cell content. -/
def cellAt (g : List (List (Option Piece))) (i j : Int) : Option Piece :=
  ((lookupZ i g).bind fun r => lookupZ j r).join

/-- `chainPieces` from `connectedFour`, with the `CoordMove` instantiated as
the translation by `(di, dj)` (the only moves the source constructs).  The
`fuel` argument bounds the recursion: the chain grows by one coordinate per
call and the function returns as soon as it holds 4, so fuel 4 is never
exhausted on the source's calls, which start from a singleton chain. -/
def chainPieces (g : List (List (Option Piece))) (di dj : Int) :
    Nat → Int → Int → Piece → List (Int × Int) → Option (List (Int × Int))
  | fuel, i, j, piece, chained =>
    if chained.length = 4 then
      some chained
    else
      match fuel with
      | 0 => none
      | fuel + 1 =>
        match cellAt g (i + di) (j + dj) with
        | none => none
        | some p =>
          if p = piece then
            chainPieces g di dj fuel (i + di) (j + dj) piece (chained ++ [(i + di, j + dj)])
          else
            none

/-- `nonEmptyArray.range(a, b)`: the integers from `a` to `b` inclusive. -/
def rangeNE (a b : Nat) : List Int :=
  (List.range (b + 1 - a)).map fun k : Nat => (a : Int) + (k : Int)

/-- `checkDirection` from `connectedFour`: enumerate the candidate starting
coordinates, keep the occupied ones with their piece, and search for the
first one whose chain in direction `(di, dj)` reaches length 4. -/
def checkDirection (g : List (List (Option Piece))) (di dj : Int)
    (is js : List Int) : Option (List (Int × Int)) :=
  ((is.flatMap fun i => js.map fun j => (i, j)).filterMap fun c =>
      (cellAt g c.1 c.2).map fun p => (c, p)).findSome? fun cp =>
    chainPieces g di dj 4 cp.1.1 cp.1.2 cp.2 [cp.1]

/-- `connectedFour` from codecs.ts: some direction reports a 4-chain. -/
def connectedFour (b : Board) : Bool :=
  let allRows := toGrid b
  (checkDirection allRows 0 1 (rangeNE 0 6) (rangeNE 0 3)).isSome
    || (checkDirection allRows 1 0 (rangeNE 0 3) (rangeNE 0 6)).isSome
    || (checkDirection allRows 1 1 (rangeNE 0 3) (rangeNE 0 3)).isSome
    || (checkDirection allRows 1 (-1) (rangeNE 0 3) (rangeNE 3 6)).isSome

/-- A move: a target row and the side to insert from. -/
structure Move where
  row : RowIndex
  side : RowSide
deriving DecidableEq, Repr

/-- The game value: either still playing (with the piece to move next) or
over (with the winner). -/
inductive Game
  | Playing (board : Board) (playingPiece : Piece)
  | Over (board : Board) (winner : Piece)
deriving DecidableEq, Repr

/-- The `AdvanceError` union from codecs.ts. -/
inductive AdvanceError
  | RowFull
  | GameOver
  | IncorrectPiece (expected actual : Piece)
deriving DecidableEq, Repr

/-- `showAdvanceError` from codecs.ts. -/
def showAdvanceError : AdvanceError → String
  | .RowFull => "Row is full"
  | .GameOver => "Game is over"
  | .IncorrectPiece expected actual =>
      "Incorrect piece. Expected " ++ showPiece expected ++ ", got " ++ showPiece actual ++ " "

/-- `advance` from codecs.ts: validate the turn, insert the piece, then
either finish the game on a connect-four or pass the turn. -/
def advance (game : Game) (piece : Piece) (mv : Move) : Except AdvanceError Game :=
  match game with
  | .Playing board playingPiece =>
      if piece = playingPiece then
        match addPiece playingPiece mv.side (getRow board mv.row) with
        | .error _ => .error .RowFull
        | .ok newRow =>
            let newBoard := setRow board mv.row newRow
            if connectedFour newBoard then
              .ok (.Over newBoard playingPiece)
            else
              .ok (.Playing newBoard (nextPiece playingPiece))
      else
        .error (.IncorrectPiece playingPiece piece)
  | .Over _ _ => .error .GameOver

/-- The all-empty row. -/
def emptyRow : Row := { left := [], right := [] }

/-- `initGame` from codecs.ts. -/
def initGame : Game :=
  .Playing
    { row1 := emptyRow, row2 := emptyRow, row3 := emptyRow, row4 := emptyRow,
      row5 := emptyRow, row6 := emptyRow, row7 := emptyRow }
    .X

/-! ### Specification-side description of a win

`fourRun g di dj i j p` states, following the spec's words, that the four
consecutive cells of the rendered grid starting at `(i, j)` and stepping by
`(di, dj)` are all occupied by piece `p`.  Out-of-grid lookups yield `none`,
so the four cells are forced to lie inside the grid. -/

def fourRun (g : List (List (Option Piece))) (di dj i j : Int) (p : Piece) : Prop :=
  cellAt g i j = some p
    ∧ cellAt g (i + di) (j + dj) = some p
    ∧ cellAt g (i + di + di) (j + dj + dj) = some p
    ∧ cellAt g (i + di + di + di) (j + dj + dj + dj) = some p

/-- The four scan directions of the win detector: rightward along a row,
downward along a column, down-right diagonal, down-left diagonal. -/
def anyDirRun (g : List (List (Option Piece))) (i j : Int) (p : Piece) : Prop :=
  fourRun g 0 1 i j p ∨ fourRun g 1 0 i j p ∨ fourRun g 1 1 i j p ∨ fourRun g 1 (-1) i j p

/-- A win as the spec states it: four consecutive cells of the rendered grid,
in one of the four directions, all occupied by the same piece. -/
def specWinGrid (g : List (List (Option Piece))) : Prop :=
  ∃ (p : Piece) (i j : Int), anyDirRun g i j p

/-- A win owned by a specific piece `p`. -/
def specWinFor (g : List (List (Option Piece))) (p : Piece) : Prop :=
  ∃ (i j : Int), anyDirRun g i j p

/-- Executable check for `fourRun`. -/
def fourRunB (g : List (List (Option Piece))) (di dj i j : Int) (p : Piece) : Bool :=
  decide (cellAt g i j = some p)
    && decide (cellAt g (i + di) (j + dj) = some p)
    && decide (cellAt g (i + di + di) (j + dj + dj) = some p)
    && decide (cellAt g (i + di + di + di) (j + dj + dj + dj) = some p)

/-- Executable scan for a win owned by `p`, over the 7x7 starting cells. -/
def winForBool (b : Board) (p : Piece) : Bool :=
  (rangeNE 0 6).any fun i => (rangeNE 0 6).any fun j =>
    fourRunB (toGrid b) 0 1 i j p || fourRunB (toGrid b) 1 0 i j p
      || fourRunB (toGrid b) 1 1 i j p || fourRunB (toGrid b) 1 (-1) i j p

/-- The row-capacity invariant of the data model. -/
def WFRow (r : Row) : Prop := numPieces r ≤ MaxRowPieces

/-- A board all of whose rows satisfy the capacity invariant, so that its
rendered grid is 7x7. -/
def WFBoard (b : Board) : Prop :=
  WFRow b.row1 ∧ WFRow b.row2 ∧ WFRow b.row3 ∧ WFRow b.row4
    ∧ WFRow b.row5 ∧ WFRow b.row6 ∧ WFRow b.row7

instance : DecidablePred WFRow := fun r => by unfold WFRow; infer_instance

instance : DecidablePred WFBoard := fun b => by unfold WFBoard; infer_instance

/-! ### Shape of the rendered grid -/

theorem WFBoard_getRow {b : Board} (hb : WFBoard b) (idx : RowIndex) :
    WFRow (getRow b idx) := by
  cases idx <;> simp only [getRow] <;>
    first
      | exact hb.1
      | exact hb.2.1
      | exact hb.2.2.1
      | exact hb.2.2.2.1
      | exact hb.2.2.2.2.1
      | exact hb.2.2.2.2.2.1
      | exact hb.2.2.2.2.2.2

theorem toGrid_length (b : Board) : (toGrid b).length = 7 := by
  simp [toGrid, rowIndexes]

theorem toGrid_row_length {b : Board} (hb : WFBoard b) :
    ∀ r ∈ toGrid b, r.length = 7 := by
  intro r hr
  simp only [toGrid, List.mem_map] at hr
  obtain ⟨idx, -, rfl⟩ := hr
  have h := WFBoard_getRow hb idx
  simp only [WFRow, MaxRowPieces, numPieces] at h
  simp [numPieces, MaxRowPieces]
  omega

theorem lookupZ_eq_some {l : List α} {i : Int} {a : α} (h : lookupZ i l = some a) :
    0 ≤ i ∧ i < l.length ∧ a ∈ l := by
  unfold lookupZ at h
  split at h
  · exact absurd h (by simp)
  · rename_i hi
    have h0 : 0 ≤ i := by omega
    have hlt : i.toNat < l.length := by
      rcases List.get?_eq_some.mp h with ⟨hl, -⟩
      exact hl
    refine ⟨h0, ?_, List.get?_mem h⟩
    omega

theorem cellAt_bounds {g : List (List (Option Piece))} {i j : Int} {p : Piece}
    (hg : g.length = 7) (hrow : ∀ r ∈ g, r.length = 7)
    (h : cellAt g i j = some p) : 0 ≤ i ∧ i < 7 ∧ 0 ≤ j ∧ j < 7 := by
  unfold cellAt at h
  rw [Option.join_eq_some, Option.bind_eq_some] at h
  obtain ⟨row, hrowl, hcell⟩ := h
  obtain ⟨hi0, hilt, hmem⟩ := lookupZ_eq_some hrowl
  obtain ⟨hj0, hjlt, -⟩ := lookupZ_eq_some hcell
  rw [hg] at hilt
  rw [hrow row hmem] at hjlt
  exact ⟨hi0, by exact_mod_cast hilt, hj0, by exact_mod_cast hjlt⟩

theorem mem_rangeNE {a b : Nat} {x : Int} :
    x ∈ rangeNE a b ↔ ∃ k : Nat, k < b + 1 - a ∧ x = (a : Int) + k := by
  constructor
  · intro hx
    obtain ⟨k, hk, hfk⟩ := List.mem_map.mp hx
    exact ⟨k, List.mem_range.mp hk, hfk.symm⟩
  · rintro ⟨k, hk, rfl⟩
    exact List.mem_map.mpr ⟨k, List.mem_range.mpr hk, rfl⟩

/-! ### Correctness of the win detector -/

theorem chainPieces_singleton_isSome (g : List (List (Option Piece)))
    (di dj i j : Int) (p : Piece) :
    (chainPieces g di dj 4 i j p [(i, j)]).isSome = true ↔
      (cellAt g (i + di) (j + dj) = some p
        ∧ cellAt g (i + di + di) (j + dj + dj) = some p
        ∧ cellAt g (i + di + di + di) (j + dj + dj + dj) = some p) := by
  cases h1 : cellAt g (i + di) (j + dj) with
  | none => simp [chainPieces, h1]
  | some q1 =>
    by_cases hq1 : q1 = p
    · cases h2 : cellAt g (i + di + di) (j + dj + dj) with
      | none => simp [chainPieces, h1, h2, hq1]
      | some q2 =>
        by_cases hq2 : q2 = p
        · cases h3 : cellAt g (i + di + di + di) (j + dj + dj + dj) with
          | none => simp [chainPieces, h1, h2, h3, hq1, hq2]
          | some q3 =>
            by_cases hq3 : q3 = p
            · simp [chainPieces, h1, h2, h3, hq1, hq2, hq3]
            · simp [chainPieces, h1, h2, h3, hq1, hq2, hq3]
        · simp [chainPieces, h1, h2, hq1, hq2]
    · simp [chainPieces, h1, hq1]

theorem findSome?_isSome_iff {α β : Type} (f : α → Option β) (l : List α) :
    (l.findSome? f).isSome = true ↔ ∃ x ∈ l, (f x).isSome = true := by
  induction l with
  | nil => simp [List.findSome?_nil]
  | cons a as ih =>
    rw [List.findSome?_cons]
    cases h : f a <;> simp [h, ih]

theorem checkDirection_isSome (g : List (List (Option Piece))) (di dj : Int)
    (is js : List Int) :
    (checkDirection g di dj is js).isSome = true ↔
      ∃ i ∈ is, ∃ j ∈ js, ∃ p, fourRun g di dj i j p := by
  unfold checkDirection
  rw [findSome?_isSome_iff]
  constructor
  · rintro ⟨cp, hmem, hsome⟩
    obtain ⟨c, hc, hfc⟩ := List.mem_filterMap.mp hmem
    obtain ⟨p, hcell, rfl⟩ := Option.map_eq_some'.mp hfc
    obtain ⟨i, hi, hcj⟩ := List.mem_flatMap.mp hc
    obtain ⟨j, hj, rfl⟩ := List.mem_map.mp hcj
    have hchain := (chainPieces_singleton_isSome g di dj i j p).mp hsome
    exact ⟨i, hi, j, hj, p, hcell, hchain.1, hchain.2.1, hchain.2.2⟩
  · rintro ⟨i, hi, j, hj, p, hstart, h2, h3, h4⟩
    refine ⟨((i, j), p), ?_, ?_⟩
    · exact List.mem_filterMap.mpr
        ⟨(i, j), List.mem_flatMap.mpr ⟨i, hi, List.mem_map.mpr ⟨j, hj, rfl⟩⟩, by simp [hstart]⟩
    · exact (chainPieces_singleton_isSome g di dj i j p).mpr ⟨h2, h3, h4⟩

theorem mem_rangeNE_of_bounds {a b : Nat} {x : Int}
    (h1 : (a : Int) ≤ x) (h2 : x ≤ (b : Int)) : x ∈ rangeNE a b := by
  apply mem_rangeNE.mpr
  refine ⟨(x - (a : Int)).toNat, ?_, ?_⟩ <;> omega

theorem fourRunB_eq_true (g : List (List (Option Piece))) (di dj i j : Int) (p : Piece) :
    fourRunB g di dj i j p = true ↔ fourRun g di dj i j p := by
  simp [fourRunB, fourRun, and_assoc]

/-- Forward half of the win-detector correctness, with no invariant needed:
when `connectedFour` fires, a 4-in-a-row really is present on the grid. -/
theorem connectedFour_sound {b : Board} (h : connectedFour b = true) :
    specWinGrid (toGrid b) := by
  unfold connectedFour at h
  simp only [Bool.or_eq_true] at h
  rcases h with ((h | h) | h) | h <;>
    obtain ⟨i, hi, j, hj, p, hrun⟩ := (checkDirection_isSome _ _ _ _ _).mp h
  · exact ⟨p, i, j, Or.inl hrun⟩
  · exact ⟨p, i, j, Or.inr (Or.inl hrun)⟩
  · exact ⟨p, i, j, Or.inr (Or.inr (Or.inl hrun))⟩
  · exact ⟨p, i, j, Or.inr (Or.inr (Or.inr hrun))⟩

/-- Backward half: on a board satisfying the capacity invariant (so the grid
is exactly 7x7), any 4-in-a-row is found by the detector's bounded scans. -/
theorem connectedFour_complete {b : Board} (hb : WFBoard b)
    (h : specWinGrid (toGrid b)) : connectedFour b = true := by
  have hg : (toGrid b).length = 7 := toGrid_length b
  have hr : ∀ r ∈ toGrid b, r.length = 7 := toGrid_row_length hb
  obtain ⟨p, i, j, hrun⟩ := h
  unfold connectedFour
  simp only [Bool.or_eq_true]
  rcases hrun with h | h | h | h
  · obtain ⟨hs, hm1, hm2, h4⟩ := h
    have b1 := cellAt_bounds hg hr hs
    have b4 := cellAt_bounds hg hr h4
    exact Or.inl (Or.inl (Or.inl ((checkDirection_isSome _ _ _ _ _).mpr
      ⟨i, mem_rangeNE_of_bounds (by omega) (by omega),
       j, mem_rangeNE_of_bounds (by omega) (by omega), p, hs, hm1, hm2, h4⟩)))
  · obtain ⟨hs, hm1, hm2, h4⟩ := h
    have b1 := cellAt_bounds hg hr hs
    have b4 := cellAt_bounds hg hr h4
    exact Or.inl (Or.inl (Or.inr ((checkDirection_isSome _ _ _ _ _).mpr
      ⟨i, mem_rangeNE_of_bounds (by omega) (by omega),
       j, mem_rangeNE_of_bounds (by omega) (by omega), p, hs, hm1, hm2, h4⟩)))
  · obtain ⟨hs, hm1, hm2, h4⟩ := h
    have b1 := cellAt_bounds hg hr hs
    have b4 := cellAt_bounds hg hr h4
    exact Or.inl (Or.inr ((checkDirection_isSome _ _ _ _ _).mpr
      ⟨i, mem_rangeNE_of_bounds (by omega) (by omega),
       j, mem_rangeNE_of_bounds (by omega) (by omega), p, hs, hm1, hm2, h4⟩))
  · obtain ⟨hs, hm1, hm2, h4⟩ := h
    have b1 := cellAt_bounds hg hr hs
    have b4 := cellAt_bounds hg hr h4
    exact Or.inr ((checkDirection_isSome _ _ _ _ _).mpr
      ⟨i, mem_rangeNE_of_bounds (by omega) (by omega),
       j, mem_rangeNE_of_bounds (by omega) (by omega), p, hs, hm1, hm2, h4⟩)

/-- The all-empty board. -/
def emptyBoard : Board :=
  { row1 := emptyRow, row2 := emptyRow, row3 := emptyRow, row4 := emptyRow,
    row5 := emptyRow, row6 := emptyRow, row7 := emptyRow }

/-- Board whose first row holds X X X X from the left: a win. -/
def winDemoBoard : Board := { emptyBoard with row1 := ⟨[.X, .X, .X, .X], []⟩ }

/-- Board whose first row holds X X X from the left and nothing else: the
spec's no-false-positive example. -/
def threeDemoBoard : Board := { emptyBoard with row1 := ⟨[.X, .X, .X], []⟩ }

/-- Claim C1: the win detector returns true exactly when the (7x7, by the capacity
invariant) rendered grid holds four consecutive cells of one piece in one of
the four scanned directions. -/
theorem connectedFour_iff_specWin (b : Board) (hb : WFBoard b) :
    connectedFour b = true ↔ specWinGrid (toGrid b) :=
  ⟨connectedFour_sound, connectedFour_complete hb⟩

/-- Witness for C1: the detector's verdicts transfer to the spec-side win
predicate on a winning board and on the three-in-a-row board. -/
theorem connectedFour_iff_specWin_witness :
    specWinGrid (toGrid winDemoBoard) ∧ ¬ specWinGrid (toGrid threeDemoBoard) :=
  ⟨(connectedFour_iff_specWin winDemoBoard (by decide)).mp (by decide),
   fun h => absurd ((connectedFour_iff_specWin threeDemoBoard (by decide)).mpr h) (by decide)⟩

theorem specWinFor_iff_winForBool (b : Board) (p : Piece) (hb : WFBoard b) :
    specWinFor (toGrid b) p ↔ winForBool b p = true := by
  have hg := toGrid_length b
  have hr := toGrid_row_length hb
  unfold specWinFor winForBool
  constructor
  · rintro ⟨i, j, h⟩
    unfold anyDirRun at h
    have hbnd : 0 ≤ i ∧ i < 7 ∧ 0 ≤ j ∧ j < 7 := by
      rcases h with h | h | h | h <;> exact cellAt_bounds hg hr h.1
    rw [List.any_eq_true]
    refine ⟨i, mem_rangeNE_of_bounds (by omega) (by omega), ?_⟩
    rw [List.any_eq_true]
    refine ⟨j, mem_rangeNE_of_bounds (by omega) (by omega), ?_⟩
    simp only [Bool.or_eq_true, fourRunB_eq_true]
    tauto
  · intro h
    rw [List.any_eq_true] at h
    obtain ⟨i, -, h⟩ := h
    rw [List.any_eq_true] at h
    obtain ⟨j, -, h⟩ := h
    simp only [Bool.or_eq_true, fourRunB_eq_true] at h
    refine ⟨i, j, ?_⟩
    unfold anyDirRun
    tauto

/-! ### The game engine -/

/-- Claim C2 as amended: whenever `advance` returns `Over`, the winner field
is the piece that moved and the new grid really holds some 4-in-a-row, though
not necessarily of the winner's pieces (no capacity hypothesis is needed:
this uses only the sound half of the detector). -/
theorem advance_over_winner (game : Game) (piece : Piece) (mv : Move)
    (b2 : Board) (w : Piece) (h : advance game piece mv = .ok (.Over b2 w)) :
    w = piece ∧ specWinGrid (toGrid b2) := by
  cases game with
  | Over b w' => simp [advance] at h
  | Playing b pp =>
    by_cases hp : piece = pp
    · subst hp
      cases ha : addPiece piece mv.side (getRow b mv.row) with
      | error e => simp [advance, ha] at h
      | ok newRow =>
        by_cases hc : connectedFour (setRow b mv.row newRow)
        · simp [advance, ha, hc] at h
          exact ⟨h.2.symm, connectedFour_sound (h.1 ▸ hc)⟩
        · simp [advance, ha, hc] at h
    · simp [advance, hp] at h

/-- The pre-move board of the C2 counterexample: no 4-in-a-row anywhere, X to
move.  X's insertion at the left of row2 shifts row2's O one column right,
completing a vertical O O O O in column 1. -/
def cexBoard : Board :=
  { emptyBoard with
      row1 := ⟨[.O, .O], []⟩, row2 := ⟨[.O], []⟩,
      row3 := ⟨[.X, .O], []⟩, row4 := ⟨[.X, .O], []⟩ }

/-- The counterexample move: X inserts into row2 from the left. -/
def cexMove : Move := ⟨.row2, .left⟩

/-- The board after the counterexample move. -/
def cexBoardAfter : Board := { cexBoard with row2 := ⟨[.X, .O], []⟩ }

/-- Counterexample to claim C2: the move succeeds and returns `Over` with winner X,
yet the rendered grid holds no 4-in-a-row of X's pieces (the matching run is
the opponent's). -/
theorem advance_over_opponent_run :
    advance (Game.Playing cexBoard Piece.X) Piece.X cexMove
        = .ok (.Over cexBoardAfter Piece.X)
      ∧ ¬ specWinFor (toGrid cexBoardAfter) Piece.X := by
  refine ⟨by rfl, fun h => ?_⟩
  have hfalse := (specWinFor_iff_winForBool cexBoardAfter .X (by decide)).mp h
  revert hfalse
  decide

/-- Witness for the amended C2 at the counterexample input. -/
theorem advance_over_winner_witness :
    Piece.X = Piece.X ∧ specWinGrid (toGrid cexBoardAfter) :=
  advance_over_winner (Game.Playing cexBoard .X) .X cexMove cexBoardAfter .X (by rfl)

theorem getRow_setRow_self (b : Board) (i : RowIndex) (r : Row) :
    getRow (setRow b i r) i = r := by
  cases i <;> rfl

theorem getRow_setRow_ne (b : Board) (i j : RowIndex) (r : Row) (h : j ≠ i) :
    getRow (setRow b i r) j = getRow b j := by
  cases i <;> cases j <;> first | rfl | exact absurd rfl h

/-- Claim C3: when the game is `Playing`, the mover holds the playing piece, and the
insertion into the target row succeeds, `advance` returns a game whose board
is the old board with exactly the targeted row replaced (all other rows
unchanged), `Over` with the mover as winner when the detector fires and
`Playing` with the other piece otherwise. -/
theorem advance_playing_success (b : Board) (pp : Piece) (mv : Move) (newRow : Row)
    (hAdd : addPiece pp mv.side (getRow b mv.row) = .ok newRow) :
    getRow (setRow b mv.row newRow) mv.row = newRow
      ∧ (∀ r, r ≠ mv.row → getRow (setRow b mv.row newRow) r = getRow b r)
      ∧ advance (.Playing b pp) pp mv =
          .ok (if connectedFour (setRow b mv.row newRow)
               then .Over (setRow b mv.row newRow) pp
               else .Playing (setRow b mv.row newRow) (nextPiece pp)) := by
  refine ⟨getRow_setRow_self b mv.row newRow,
    fun r hr => getRow_setRow_ne b mv.row r newRow hr, ?_⟩
  by_cases hc : connectedFour (setRow b mv.row newRow) <;> simp [advance, hAdd, hc]

/-- Witness for C3 at a concrete input: X inserts into the empty board. -/
theorem advance_playing_success_witness :
    getRow (setRow emptyBoard .row1 ⟨[.X], []⟩) .row1 = ⟨[.X], []⟩
      ∧ advance (.Playing emptyBoard .X) .X ⟨.row1, .left⟩ =
          .ok (if connectedFour (setRow emptyBoard .row1 ⟨[.X], []⟩)
               then .Over (setRow emptyBoard .row1 ⟨[.X], []⟩) .X
               else .Playing (setRow emptyBoard .row1 ⟨[.X], []⟩) (nextPiece .X)) :=
  ⟨(advance_playing_success emptyBoard .X ⟨.row1, .left⟩ ⟨[.X], []⟩ (by rfl)).1,
   (advance_playing_success emptyBoard .X ⟨.row1, .left⟩ ⟨[.X], []⟩ (by rfl)).2.2⟩

/-! ### Insertion capacity -/

theorem addPiece_error_iff (p : Piece) (s : RowSide) (row : Row) :
    addPiece p s row = .error .mk ↔ MaxRowPieces ≤ numPieces row := by
  cases s <;> simp only [addPiece] <;> split <;> rename_i hlt <;>
    simp only [iff_true, iff_false, reduceCtorEq, not_le, false_iff, true_iff] <;> omega

theorem addPiece_ok_numPieces {p : Piece} {s : RowSide} {row r : Row}
    (h : addPiece p s row = .ok r) :
    numPieces row < MaxRowPieces ∧ numPieces r = numPieces row + 1 := by
  cases s <;> simp only [addPiece] at h <;> split at h <;> rename_i hlt <;> simp at h
  · subst h
    refine ⟨hlt, ?_⟩
    simp only [numPieces, List.length_cons]
    omega
  · subst h
    refine ⟨hlt, ?_⟩
    simp only [numPieces, List.length_append, List.length_cons, List.length_nil]
    omega

theorem addPiece_ok_exists {p : Piece} {s : RowSide} {row : Row}
    (h : numPieces row < MaxRowPieces) : ∃ r, addPiece p s row = .ok r := by
  cases s <;> simp only [addPiece] <;> rw [if_pos h] <;> exact ⟨_, rfl⟩

/-- Claim C4: `advance` fails exactly on an `Over` game (with `GameOverError`), on
a wrong-turn piece (with `IncorrectPieceError{expected, actual}`), or on a
full target row (with the propagated `RowFullError`); being a pure function
it leaves the input game value untouched in every case. -/
theorem advance_error_iff (game : Game) (piece : Piece) (mv : Move) (e : AdvanceError) :
    advance game piece mv = .error e ↔
      ((∃ b w, game = .Over b w) ∧ e = .GameOver)
        ∨ (∃ b pp, game = .Playing b pp ∧ piece ≠ pp ∧ e = .IncorrectPiece pp piece)
        ∨ (∃ b pp, game = .Playing b pp ∧ piece = pp
            ∧ MaxRowPieces ≤ numPieces (getRow b mv.row) ∧ e = .RowFull) := by
  cases game with
  | Over b w =>
    constructor
    · intro h
      simp only [advance] at h
      rw [Except.error.injEq] at h
      exact Or.inl ⟨⟨b, w, rfl⟩, h.symm⟩
    · rintro (⟨-, rfl⟩ | ⟨b', pp', hgame, -⟩ | ⟨b', pp', hgame, -⟩)
      · rfl
      · simp at hgame
      · simp at hgame
  | Playing b pp =>
    by_cases hp : piece = pp
    · subst hp
      cases ha : addPiece piece mv.side (getRow b mv.row) with
      | error err =>
        have h7 : MaxRowPieces ≤ numPieces (getRow b mv.row) := by
          cases err
          exact (addPiece_error_iff piece mv.side (getRow b mv.row)).mp ha
        constructor
        · intro h
          simp only [advance, eq_self_iff_true, if_true, ha] at h
          rw [Except.error.injEq] at h
          exact Or.inr (Or.inr ⟨b, piece, rfl, rfl, h7, h.symm⟩)
        · rintro (⟨⟨b', w', hgame⟩, -⟩ | ⟨b', pp', hgame, hne, -⟩ | ⟨b', pp', hgame, -, -, rfl⟩)
          · simp at hgame
          · injection hgame with h1 h2
            exact absurd h2 hne
          · simp [advance, ha]
      | ok newRow =>
        have hlt := (addPiece_ok_numPieces ha).1
        constructor
        · intro h
          by_cases hc : connectedFour (setRow b mv.row newRow) <;>
            simp [advance, ha, hc] at h
        · rintro (⟨⟨b', w', hgame⟩, -⟩ | ⟨b', pp', hgame, hne, -⟩ | ⟨b', pp', hgame, -, h7, -⟩)
          · simp at hgame
          · injection hgame with h1 h2
            exact absurd h2 hne
          · injection hgame with h1 h2
            subst h1
            omega
    · constructor
      · intro h
        simp only [advance, if_neg hp] at h
        rw [Except.error.injEq] at h
        exact Or.inr (Or.inl ⟨b, pp, rfl, hp, h.symm⟩)
      · rintro (⟨⟨b', w', hgame⟩, -⟩ | ⟨b', pp', hgame, -, rfl⟩ | ⟨b', pp', hgame, heq, -, -⟩)
        · simp at hgame
        · injection hgame with h1 h2
          subst h1
          subst h2
          simp [advance, hp]
        · injection hgame with h1 h2
          subst h2
          exact absurd heq hp

/-- Folding a sequence of insertions over a row, failing as soon as one
insertion fails. -/
def insertAll (moves : List (Piece × RowSide)) (row : Row) : Except RowFullError Row :=
  match moves with
  | [] => .ok row
  | m :: rest =>
      match addPiece m.1 m.2 row with
      | .error e => .error e
      | .ok r => insertAll rest r

theorem insertAll_ok_of_le (moves : List (Piece × RowSide)) :
    ∀ row, numPieces row + moves.length ≤ MaxRowPieces →
      ∃ r, insertAll moves row = .ok r ∧ numPieces r = numPieces row + moves.length := by
  induction moves with
  | nil => exact fun row h => ⟨row, rfl, by simp⟩
  | cons m rest ih =>
    intro row h
    have hlt : numPieces row < MaxRowPieces := by
      simp only [List.length_cons] at h
      omega
    obtain ⟨r1, hr1⟩ := @addPiece_ok_exists m.1 m.2 row hlt
    have hnum := (addPiece_ok_numPieces hr1).2
    obtain ⟨r, hr, hn⟩ := ih r1 (by simp only [List.length_cons] at h; omega)
    refine ⟨r, ?stepA, ?stepB⟩
    · simp [insertAll, hr1, hr]
    · rw [hn, hnum]
      simp only [List.length_cons]
      omega

theorem insertAll_error_of_gt (moves : List (Piece × RowSide)) :
    ∀ row, numPieces row ≤ MaxRowPieces →
      MaxRowPieces < numPieces row + moves.length → insertAll moves row = .error .mk := by
  induction moves with
  | nil =>
    intro row hwf h
    exfalso
    simp only [List.length_nil] at h
    omega
  | cons m rest ih =>
    intro row hwf h
    by_cases hfull : numPieces row < MaxRowPieces
    · obtain ⟨r1, hr1⟩ := @addPiece_ok_exists m.1 m.2 row hfull
      have hnum := (addPiece_ok_numPieces hr1).2
      simp only [insertAll, hr1]
      exact ih r1 (by omega) (by simp only [List.length_cons] at h; omega)
    · have he : addPiece m.1 m.2 row = .error .mk :=
        (addPiece_error_iff m.1 m.2 row).mpr (by omega)
      simp [insertAll, he]

theorem insertAll_ok_bound (moves : List (Piece × RowSide)) :
    ∀ row r, numPieces row ≤ MaxRowPieces →
      insertAll moves row = .ok r → numPieces r ≤ MaxRowPieces := by
  induction moves with
  | nil =>
    intro row r h hr
    simp only [insertAll, Except.ok.injEq] at hr
    rwa [← hr]
  | cons m rest ih =>
    intro row r h hr
    cases ha : addPiece m.1 m.2 row with
    | error e => simp [insertAll, ha] at hr
    | ok r1 =>
      simp only [insertAll, ha] at hr
      have hnum := addPiece_ok_numPieces ha
      exact ih r1 r (by omega) hr

/-- Claim C5: starting from an empty row, any sequence of up to 7 insertions from
either side succeeds (the row then holding one piece per insertion), an 8th
insertion makes the whole sequence fail with `RowFullError`, and a further
insertion into a reachable row fails with `RowFullError` exactly when the
row already holds 7 pieces across both sides. -/
theorem insert_capacity (moves : List (Piece × RowSide)) :
    (moves.length ≤ MaxRowPieces →
        ∃ r, insertAll moves emptyRow = .ok r ∧ numPieces r = moves.length)
      ∧ (∀ r, insertAll moves emptyRow = .ok r →
          ∀ (p : Piece) (s : RowSide),
            (addPiece p s r = .error .mk ↔ numPieces r = MaxRowPieces))
      ∧ (MaxRowPieces < moves.length → insertAll moves emptyRow = .error .mk) := by
  refine ⟨?firstSeven, ?reach, ?overflow⟩
  · intro hlen
    have h0 : numPieces emptyRow = 0 := rfl
    obtain ⟨r, hr, hn⟩ := insertAll_ok_of_le moves emptyRow (by omega)
    exact ⟨r, hr, by omega⟩
  · intro r hr p s
    have hb : numPieces r ≤ MaxRowPieces :=
      insertAll_ok_bound moves emptyRow r (by simp [numPieces, emptyRow]) hr
    rw [addPiece_error_iff]
    omega
  · intro hlen
    exact insertAll_error_of_gt moves emptyRow (by simp [numPieces, emptyRow]) (by omega)

/-- Witness for C5: eight left insertions of X into an empty row fail with
`RowFullError`. -/
theorem insert_capacity_witness :
    insertAll (List.replicate 8 (Piece.X, RowSide.left)) emptyRow = .error .mk :=
  (insert_capacity (List.replicate 8 (Piece.X, RowSide.left))).2.2 (by decide)


/-- Position of a row identifier among the seven grid rows. -/
def rowPos : RowIndex → Nat
  | .row1 => 0
  | .row2 => 1
  | .row3 => 2
  | .row4 => 3
  | .row5 => 4
  | .row6 => 5
  | .row7 => 6

theorem replicate_get? (n k : Nat) (x : α) (h : k < n) :
    (List.replicate n x).get? k = some x := by
  induction n generalizing k with
  | zero => omega
  | succ m ih =>
    cases k with
    | zero => rfl
    | succ k2 =>
      simp only [List.replicate]
      exact ih k2 (by omega)

/-- Claim C6: a successful left insertion prepends to the left sequence and a
successful right insertion appends to the right sequence; on a board
satisfying the capacity invariant, each rendered grid row is 7 cells wide,
carrying the left sequence in stored order in its first columns, empty cells
in the middle, and the right sequence in stored order in its last columns. -/
theorem insert_order_and_grid :
    (∀ (p : Piece) (row : Row), numPieces row < MaxRowPieces →
        addPiece p .left row = .ok ⟨p :: row.left, row.right⟩
          ∧ addPiece p .right row = .ok ⟨row.left, row.right ++ [p]⟩)
      ∧ (∀ (b : Board), WFBoard b → ∀ (idx : RowIndex) (g : List (Option Piece)),
          (toGrid b).get? (rowPos idx) = some g →
            g.length = 7
              ∧ (∀ k (h : k < (getRow b idx).left.length),
                  g.get? k = some (some ((getRow b idx).left.get ⟨k, h⟩)))
              ∧ (∀ k, (getRow b idx).left.length ≤ k →
                  k < 7 - (getRow b idx).right.length → g.get? k = some none)
              ∧ (∀ k (h : k < (getRow b idx).right.length),
                  g.get? (7 - (getRow b idx).right.length + k)
                    = some (some ((getRow b idx).right.get ⟨k, h⟩)))) := by
  constructor
  · intro p row h
    constructor <;> simp [addPiece, if_pos h]
  · intro b hb idx g hg
    have hval : (toGrid b).get? (rowPos idx) = some
        ((getRow b idx).left.map some
          ++ List.replicate (MaxRowPieces - numPieces (getRow b idx)) none
          ++ ((getRow b idx).right.map some)) := by
      cases idx <;> rfl
    rw [hval, Option.some.injEq] at hg
    subst hg
    have hwf : numPieces (getRow b idx) ≤ MaxRowPieces := WFBoard_getRow hb idx
    simp only [WFRow] at hwf
    set r := getRow b idx with hr
    have hn : numPieces r = r.left.length + r.right.length := rfl
    have hM : MaxRowPieces = 7 := rfl
    refine ⟨?lenGoal, ?leftGoal, ?midGoal, ?rightGoal⟩
    · simp only [List.length_append, List.length_map, List.length_replicate]
      omega
    · intro k h
      rw [List.get?_append (by simp; omega)]
      rw [List.get?_append (by simp; omega)]
      rw [List.get?_map, List.get?_eq_get h]
      rfl
    · intro k hk1 hk2
      rw [List.get?_append (by simp; omega)]
      rw [List.get?_append_right (by simp; omega)]
      rw [List.length_map]
      exact replicate_get? _ _ _ (by omega)
    · intro k h
      rw [List.get?_append_right (by simp; omega)]
      have hidx : 7 - r.right.length + k -
          ((r.left.map some).length
            + (List.replicate (MaxRowPieces - numPieces r) (none : Option Piece)).length)
          = k := by
        simp only [List.length_map, List.length_replicate]
        omega
      rw [List.length_append, hidx]
      rw [List.get?_map, List.get?_eq_get h]
      rfl


/-- Demo board for the C6 witness: row1 holds X inserted from the left and O
inserted from the right. -/
def demoRowBoard : Board := { emptyBoard with row1 := ⟨[.X], [.O]⟩ }

/-- Witness for C6 at concrete inputs. -/
theorem insert_order_and_grid_witness :
    addPiece Piece.X RowSide.left emptyRow = Except.ok ⟨[Piece.X], []⟩
      ∧ ([some Piece.X, none, none, none, none, none, some Piece.O]
            : List (Option Piece)).get? 0 = some (some Piece.X) :=
  ⟨(insert_order_and_grid.1 Piece.X emptyRow (by decide)).1,
   (insert_order_and_grid.2 demoRowBoard (by decide) RowIndex.row1
      [some Piece.X, none, none, none, none, none, some Piece.O] (by rfl)).2.1 0 (by decide)⟩

/-! ### Wire decoding (shared module)

The wire payload of a `MessageReceived` action is raw socket data that the
server first renders as text and parses as JSON.  JSON values are embedded as
an inductive; the platform JSON parser itself lives outside the repository,
so a payload is embedded by its parse outcome. -/

/-- A JSON value. -/
inductive Json
  | null
  | bool (b : Bool)
  | num (n : Int)
  | str (s : String)
  | arr (items : List Json)
  | obj (fields : List (String × Json))

/-- The `ApiError` union from the shared api module. -/
inductive ApiError
  | JsonParseError (parseError : String)
  | DecodeError (decodeError : String)
deriving DecidableEq, Repr

/-- `showApiError` from the shared api module. -/
def showApiError : ApiError → String
  | .JsonParseError e => "JsonParseError: " ++ e
  | .DecodeError e => "DecodeError: " ++ e

/-- `parseJson` from the shared api module.  Modelled from the spec: the
platform JSON parser (`JSON.parse`, external to the repository) either
yields a JSON value or throws; a raw payload is embedded by that outcome
(`none` when the text is not valid JSON), which `parseJson` wraps in
`Either` exactly as the source does. -/
def parseJson (data : Option Json) : Except ApiError Json :=
  match data with
  | some j => .ok j
  | none => .error (.JsonParseError "JSON parse failed")

/-- The seven row-identifier literals accepted by `rowIndexCodec`. -/
def rowIndexFromString : String → Option RowIndex
  | "row1" => some .row1
  | "row2" => some .row2
  | "row3" => some .row3
  | "row4" => some .row4
  | "row5" => some .row5
  | "row6" => some .row6
  | "row7" => some .row7
  | _ => none

/-- The two side literals accepted by `rowSideCodec`. -/
def rowSideFromString : String → Option RowSide
  | "left" => some .left
  | "right" => some .right
  | _ => none

/-- Field lookup in a JSON object. -/
def lookupField (fields : List (String × Json)) (k : String) : Option Json :=
  (fields.find? fun f => f.1 = k).map fun f => f.2

/-- `decode(moveCodec)`: an io-ts `t.type` requiring an object whose `row`
field is one of the seven row literals and whose `side` field is one of the
two side literals; anything else yields a structured decode error. -/
def decodeMove (j : Json) : Except ApiError Move :=
  match j with
  | .obj fields =>
      match lookupField fields "row", lookupField fields "side" with
      | some (.str r), some (.str s) =>
          match rowIndexFromString r, rowSideFromString s with
          | some row, some side => .ok ⟨row, side⟩
          | _, _ => .error (.DecodeError "Invalid value supplied to Move")
      | _, _ => .error (.DecodeError "Invalid value supplied to Move")
  | _ => .error (.DecodeError "Invalid value supplied to Move")

/-! ### The session state machine (server/src/state.ts)

Peer connection handles (`WebSocket`) and the database handle
(`sqlite3.Database`) are opaque to the reducer; they are embedded as type
parameters.  Effects are closures in the source; they are embedded as data
carrying exactly what each closure captures. -/

section Session

variable {Peer Db : Type}

/-- The session `State` union from state.ts. -/
inductive State (Peer Db : Type)
  | Empty (db : Db)
  | WaitingForOpponent (playerX : Peer) (db : Db)
  | Ready (playerX playerO : Peer) (db : Db)
  | Started (playerX playerO : Peer) (game : Game) (gameId : Int) (db : Db)

/-- The server-to-client `Message` union from codecs.ts. -/
inductive Message
  | Error (message : String)
  | Connected (piece : Piece)
  | OpponentLeft
  | GameUpdate (game : Game)
deriving DecidableEq, Repr

/-- The effects a transition emits, as data: each constructor records one of
the closures built in state.ts with what it captures. -/
inductive Effect (Peer : Type)
  | logError (error : String)
  | logDebug (message : String)
  | send (message : Message) (ws : Peer)
  | startGame
  | subscribe (playerPiece : Piece) (ws : Peer)
  | broadcast (message : Message)
  | saveMove (gameId : Int) (mv : Move) (piece : Piece)

/-- The `Action` union from state.ts; the raw payload of `MessageReceived`
is embedded by its JSON parse outcome. -/
inductive Action (Peer : Type)
  | PlayerJoined (player : Peer)
  | PlayerLeft (playerPiece : Piece)
  | GameStarted (game : Game) (gameId : Int)
  | MessageReceived (playerPiece : Piece) (data : Option Json)

/-- The database handle carried by a session state. -/
def State.db : State Peer Db → Db
  | .Empty db => db
  | .WaitingForOpponent _ db => db
  | .Ready _ _ db => db
  | .Started _ _ _ _ db => db

/-- `join` from state.ts. -/
def join (ws : Peer) (state : State Peer Db) :
    Except String (State Peer Db × List (Effect Peer)) :=
  match state with
  | .Empty db =>
      .ok (.WaitingForOpponent ws db,
        [.send (.Connected .X) ws,
         .logDebug "First player joined. Waiting for the second player..."])
  | .WaitingForOpponent pX db =>
      .ok (.Ready pX ws db,
        [.send (.Connected .O) ws,
         .startGame,
         .logDebug "Second player joined. Starting game..."])
  | .Ready _ _ _ => .error "Game already started"
  | .Started _ _ _ _ _ => .error "Game already started"

/-- `move` from state.ts: reject unless a game is running, then feed the
move to `advance`, persisting and broadcasting on success. -/
def move (playerPiece : Piece) (state : State Peer Db) (mv : Move) :
    Except String (State Peer Db × List (Effect Peer)) :=
  match state with
  | .Empty _ => .error "No players connected"
  | .WaitingForOpponent _ _ => .error "Waiting for opponent"
  | .Ready _ _ _ => .error "Game not started yet"
  | .Started pX pO game gameId db =>
      match advance game playerPiece mv with
      | .error e => .error (showAdvanceError e)
      | .ok g =>
          .ok (.Started pX pO g gameId db,
            [.saveMove gameId mv playerPiece, .broadcast (.GameUpdate g)])

/-- `update` from state.ts: the pure reducer. -/
def update (action : Action Peer) (state : State Peer Db) :
    State Peer Db × List (Effect Peer) :=
  match action with
  | .PlayerJoined p =>
      match join p state with
      | .error e => (state, [.logError e])
      | .ok r => r
  | .PlayerLeft playerPiece =>
      match state with
      | .Started pX pO _ _ db =>
          (.Empty db,
            [.logDebug ("Player " ++ showPiece playerPiece ++ " left the game"),
             .send .OpponentLeft (match playerPiece with | .X => pO | .O => pX)])
      | .Empty db => (.Empty db, [])
      | .WaitingForOpponent _ db => (.Empty db, [])
      | .Ready _ _ db => (.Empty db, [])
  | .GameStarted g id =>
      match state with
      | .Ready pX pO db =>
          (.Started pX pO g id db,
            [.subscribe .X pX, .subscribe .O pO, .broadcast (.GameUpdate g)])
      | s => (s, [.logError "Game is not ready to be started"])
  | .MessageReceived playerPiece data =>
      match
        (match (parseJson data).bind decodeMove with
          | .error e => .error (showApiError e)
          | .ok mv => move playerPiece state mv : Except String _)
      with
      | .error e => (state, [.logError e])
      | .ok r => r

end Session


/-- Claim C7: the matchmaking sequence: a first join on `Empty` yields
`WaitingForOpponent` assigning piece X with a notification to that peer; a
second join yields `Ready` with a notification of piece O followed, in that
order, by the game-creation request; `GameStarted` on `Ready` yields
`Started` carrying the game and id, subscribing both peers then broadcasting
a `GameUpdate`. -/
theorem matchmaking_sequence {Peer Db : Type} (p1 p2 : Peer) (db : Db) (g : Game) (id : Int) :
    update (.PlayerJoined p1) (.Empty db)
        = (.WaitingForOpponent p1 db,
           [.send (.Connected .X) p1,
            .logDebug "First player joined. Waiting for the second player..."])
      ∧ update (.PlayerJoined p2) (.WaitingForOpponent p1 db)
        = (.Ready p1 p2 db,
           [.send (.Connected .O) p2, .startGame,
            .logDebug "Second player joined. Starting game..."])
      ∧ update (.GameStarted g id) (.Ready p1 p2 db)
        = (.Started p1 p2 g id db,
           [.subscribe .X p1, .subscribe .O p2, .broadcast (.GameUpdate g)]) :=
  ⟨rfl, rfl, rfl⟩

/-- Counterexample to claim C8: `PlayerLeft` on a `Started` state yields two
effects (a debug log, then the notification of the other peer), not exactly
one. -/
theorem playerLeft_two_effects :
    (update (Action.PlayerLeft Piece.X)
        (State.Started 0 1 initGame 7 () : State Nat Unit)).2
      = [Effect.logDebug "Player X left the game", Effect.send Message.OpponentLeft 1]
    ∧ (update (Action.PlayerLeft Piece.X)
        (State.Started 0 1 initGame 7 () : State Nat Unit)).2.length ≠ 1 :=
  ⟨rfl, by decide⟩

/-- Claim C8 as amended: on a `Started` state, `PlayerLeft` yields `Empty`
and exactly two effects, a log followed by the single notification, which
goes to the peer that did not leave; on every non-`Started` state it yields
`Empty` with no effect at all. -/
theorem playerLeft_effects {Peer Db : Type} (s : State Peer Db) (pc : Piece) :
    (∀ (pX pO : Peer) (g : Game) (id : Int) (db : Db), s = .Started pX pO g id db →
        update (.PlayerLeft pc) s
          = (.Empty db,
             [.logDebug ("Player " ++ showPiece pc ++ " left the game"),
              .send .OpponentLeft (match pc with | .X => pO | .O => pX)]))
      ∧ ((∀ (pX pO : Peer) (g : Game) (id : Int) (db : Db), s ≠ .Started pX pO g id db) →
          update (.PlayerLeft pc) s = (.Empty s.db, [])) := by
  constructor
  · rintro pX pO g id db rfl
    rfl
  · intro h
    cases s with
    | Empty db => rfl
    | WaitingForOpponent p db => rfl
    | Ready p q db => rfl
    | Started pX pO g id db => exact absurd rfl (h pX pO g id db)

/-- Witness for the amended C8 on a non-`Started` state. -/
theorem playerLeft_effects_witness :
    update (Action.PlayerLeft Piece.X) (State.WaitingForOpponent 0 () : State Nat Unit)
      = (State.Empty (), []) :=
  (playerLeft_effects (State.WaitingForOpponent 0 () : State Nat Unit) Piece.X).2
    (fun _ _ _ _ _ h => State.noConfusion h)

/-- Reduction of the `MessageReceived` branch of `update` to the composed
parse-decode-move pipeline. -/
theorem update_messageReceived {Peer Db : Type} (pc : Piece) (data : Option Json)
    (s : State Peer Db) :
    update (.MessageReceived pc data) s =
      match (parseJson data).bind decodeMove with
      | .error e => (s, [.logError (showApiError e)])
      | .ok mv =>
          match move pc s mv with
          | .error e => (s, [.logError e])
          | .ok r => r := by
  simp only [update]
  cases hd : (parseJson data).bind decodeMove with
  | error e => rfl
  | ok mv => cases move pc s mv <;> rfl

/-- Claim C9: every rejected action is atomic and log-only: joins on a full
session, `GameStarted` outside `Ready`, and messages that are not valid JSON,
do not decode to a `Move` (in particular a row or side name outside the
enumerated literal sets yields a structured decode error), arrive outside
`Started`, or are rejected by `advance`, all return the state unchanged with
a single log effect and send nothing to either peer. -/
theorem rejected_actions_log_only {Peer Db : Type} (s : State Peer Db) :
    (∀ (p : Peer),
        ((∃ pX pO db, s = .Ready pX pO db) ∨ (∃ pX pO g id db, s = .Started pX pO g id db)) →
          update (.PlayerJoined p) s = (s, [.logError "Game already started"]))
      ∧ (∀ (g : Game) (id : Int), (∀ pX pO db, s ≠ .Ready pX pO db) →
          update (.GameStarted g id) s = (s, [.logError "Game is not ready to be started"]))
      ∧ (∀ (pc : Piece) (data : Option Json),
          ((∀ pX pO g id db, s ≠ .Started pX pO g id db)
            ∨ data = none
            ∨ (∃ j e, data = some j ∧ decodeMove j = .error e)
            ∨ (∃ j mv pX pO g id db e, data = some j ∧ decodeMove j = .ok mv
                ∧ s = .Started pX pO g id db ∧ advance g pc mv = .error e)) →
          ∃ msg, update (.MessageReceived pc data) s = (s, [.logError msg]))
      ∧ (∀ (fields : List (String × Json)) (r : String),
          lookupField fields "row" = some (.str r) → rowIndexFromString r = none →
          ∃ d, decodeMove (.obj fields) = .error (.DecodeError d))
      ∧ (∀ (fields : List (String × Json)) (r : String),
          lookupField fields "side" = some (.str r) → rowSideFromString r = none →
          ∃ d, decodeMove (.obj fields) = .error (.DecodeError d)) := by
  refine ⟨?caseJoin, ?caseStart, ?caseMsg, ?caseRow, ?caseSide⟩
  · rintro p (⟨pX, pO, db, rfl⟩ | ⟨pX, pO, g, id, db, rfl⟩) <;> rfl
  · intro g id h
    cases s with
    | Empty db => rfl
    | WaitingForOpponent p db => rfl
    | Ready pX pO db => exact absurd rfl (h pX pO db)
    | Started pX pO g0 id0 db => rfl
  · intro pc data hcond
    rw [update_messageReceived]
    rcases hcond with hns | rfl | ⟨j, e, rfl, hdec⟩ | ⟨j, mv, pX, pO, g, id, db, e, rfl, hdec, rfl, hadv⟩
    · cases data with
      | none => exact ⟨_, rfl⟩
      | some j =>
        cases hd : decodeMove j with
        | error e => exact ⟨showApiError e, by simp [parseJson, Except.bind, hd]⟩
        | ok mv =>
          cases s with
          | Empty db => exact ⟨"No players connected", by simp [parseJson, Except.bind, hd, move]⟩
          | WaitingForOpponent p db => exact ⟨"Waiting for opponent", by simp [parseJson, Except.bind, hd, move]⟩
          | Ready p q db => exact ⟨"Game not started yet", by simp [parseJson, Except.bind, hd, move]⟩
          | Started pX pO g id db => exact absurd rfl (hns pX pO g id db)
    · exact ⟨_, rfl⟩
    · exact ⟨showApiError e, by simp [parseJson, Except.bind, hdec]⟩
    · exact ⟨showAdvanceError e, by simp [parseJson, Except.bind, hdec, move, hadv]⟩
  · intro fields r hlook hnone
    refine ⟨"Invalid value supplied to Move", ?_⟩
    simp only [decodeMove, hlook]
    cases hside : lookupField fields "side" with
    | none => rfl
    | some js =>
      cases js with
      | null => rfl
      | bool bb => rfl
      | num n => rfl
      | str s2 =>
        simp only [hnone]
      | arr items => rfl
      | obj f2 => rfl
  · intro fields r hlook hnone
    refine ⟨"Invalid value supplied to Move", ?_⟩
    simp only [decodeMove, hlook]
    cases hrow : lookupField fields "row" with
    | none => rfl
    | some jr =>
      cases jr with
      | null => rfl
      | bool bb => rfl
      | num n => rfl
      | str r2 =>
        simp only [hnone]
        cases rowIndexFromString r2 <;> rfl
      | arr items => rfl
      | obj f2 => rfl

/-- Witness for C9: `GameStarted` on an `Empty` session is log-only. -/
theorem rejected_actions_log_only_witness :
    update (Action.GameStarted initGame 1) (State.Empty () : State Nat Unit)
      = (State.Empty (), [Effect.logError "Game is not ready to be started"]) :=
  (rejected_actions_log_only (State.Empty () : State Nat Unit)).2.1 initGame 1
    (fun pX pO db h => State.noConfusion h)

/-- Claim C10: every transition of `update` returns a state carrying the
same database handle as the input state. -/
theorem update_preserves_db {Peer Db : Type} (a : Action Peer) (s : State Peer Db) :
    ((update a s).1).db = s.db := by
  cases a with
  | PlayerJoined p => cases s <;> rfl
  | PlayerLeft pc => cases s <;> rfl
  | GameStarted g id => cases s <;> rfl
  | MessageReceived pc data =>
    rw [update_messageReceived]
    cases hd : (parseJson data).bind decodeMove with
    | error e => rfl
    | ok mv =>
      cases s with
      | Empty db => rfl
      | WaitingForOpponent p db => rfl
      | Ready p q db => rfl
      | Started pX pO g id db =>
        simp only [move]
        cases advance g pc mv <;> rfl

end SideStacker
